import Mathlib

/-!
Verification of the topic/partition state core of `src/rdkafka_topic.c`
(librdkafka's producer-side topic handling) against its natural-language
specification.  The C code is shallowly embedded: structs become Lean
structures, in-place mutation becomes explicit state passing, intrusive
TAILQ lists become `List`, and reference counts are plain naturals.
Object identity (needed to state "the same partition object") is modelled
by an allocation identifier `oid` stamped at creation.
-/

namespace RdKafka

/-- A produced message (rd_kafka_msg_t): an identifier standing for the
message body, and its byte size as counted by the queue's byte counter. -/
structure Msg where
  mid : Nat
  mbytes : Nat
deriving DecidableEq, Repr

/-- Modelled from the spec: `rd_kafka_msgq_t` of rdkafka_msg.h (not under
src/) — an ordered sequence of message records with two aggregate
counters, message count (`rkmq_msg_cnt`) and total byte count
(`rkmq_msg_bytes`) (spec §3, §4.1). -/
structure Msgq where
  msgs : List Msg
  cnt : Nat
  mbytes : Nat
deriving DecidableEq, Repr

/-- Modelled from the spec: an initialised, empty message queue
(RD_KAFKA_MSGQ_INITIALIZER / rd_kafka_msgq_init). -/
def msgqInit : Msgq := ⟨[], 0, 0⟩

/-- Modelled from the spec: append-tail (`rd_kafka_msgq_enq`), updating both
counters. -/
def rd_kafka_msgq_enq (q : Msgq) (m : Msg) : Msgq :=
  ⟨q.msgs ++ [m], q.cnt + 1, q.mbytes + m.mbytes⟩

/-- Modelled from the spec: insert-head (`rd_kafka_msgq_insert`), for
control messages that must precede queued data. -/
def rd_kafka_msgq_insert (q : Msgq) (m : Msg) : Msgq :=
  ⟨m :: q.msgs, q.cnt + 1, q.mbytes + m.mbytes⟩

/-- Modelled from the spec: splice-concat (`rd_kafka_msgq_concat`) — move
all of `src` onto the tail of `dst` in O(1), adding `src`'s counters to
`dst`'s and resetting `src` to empty.  Returns the pair
(new dst, new src). -/
def rd_kafka_msgq_concat (dst src : Msgq) : Msgq × Msgq :=
  (⟨dst.msgs ++ src.msgs, dst.cnt + src.cnt, dst.mbytes + src.mbytes⟩, msgqInit)

/-- Modelled from the spec: move-assign (`rd_kafka_msgq_move`) — replace
`dst`'s contents with `src`'s, leaving `src` empty.  Returns the pair
(new dst, new src). -/
def rd_kafka_msgq_move (dst src : Msgq) : Msgq × Msgq :=
  (src, msgqInit)

/-- Modelled from the spec: purge (`rd_kafka_msgq_purge`) — release every
element (the per-message release hook is external), leaving the queue
empty. -/
def rd_kafka_msgq_purge (q : Msgq) : Msgq := msgqInit

/-- A message queue is well formed when its counters agree with its
contents; every queue the code builds from an empty queue satisfies it. -/
def Msgq.wf (q : Msgq) : Prop :=
  q.cnt = q.msgs.length ∧ q.mbytes = (q.msgs.map Msg.mbytes).sum

/-- The partition sentinel RD_KAFKA_PARTITION_UA ((int32_t)-1), naming the
unassigned partition slot. -/
def RD_KAFKA_PARTITION_UA : Int := -1

/-- Partition object `rd_kafka_toppar_t`.  `oid` is the allocation
identity (the C object's address) used to state that two occurrences are
the same object; `desired`/`unknown` are the RD_KAFKA_TOPPAR_F_DESIRED and
RD_KAFKA_TOPPAR_F_UNKNOWN bits of `rktp_flags`; `rc` is `rktp_refcnt`.
The fetch state, xmit queue and fetch queue are carried by the real struct
but never inspected by the operations verified here. -/
structure Part where
  oid : Nat
  rktp_partition : Int
  desired : Bool
  unknown : Bool
  msgq : Msgq
  rc : Nat
deriving DecidableEq, Repr

/-- Default Part used only to totalise dense-array accesses `rkt_p[i]`;
never reached under the length invariant `rkt_p.length = rkt_partition_cnt`. -/
def junkPart : Part := ⟨0, 0, false, false, msgqInit, 0⟩

/-- rd_kafka_toppar_new: calloc-zeroed partition object with the partition
id set, queues initialised and one reference held by the creator
(rd_kafka_toppar_keep).  The matching rd_kafka_topic_keep on the parent
topic is registry-level state, tracked in the registry model below. -/
def rd_kafka_toppar_new (oid : Nat) (partition : Int) : Part :=
  ⟨oid, partition, false, false, msgqInit, 1⟩

/-- Topic object `rd_kafka_topic_t`, restricted to the partition-topology
fields: the dense partition array `rkt_p` with `rkt_partition_cnt`, the
unassigned slot `rkt_ua`, and the desired-but-unseen list `rkt_desp`.
The name, configuration and registry linkage live in the registry model
below. -/
structure Topic where
  rkt_partition_cnt : Nat
  rkt_p : List Part
  rkt_ua : Option Part
  rkt_desp : List Part
deriving DecidableEq, Repr

/-- Linear scan of a desired list for a partition id (the TAILQ_FOREACH
loop of rd_kafka_toppar_desired_get). -/
def desiredFind (desp : List Part) (partition : Int) : Option Part :=
  desp.find? (fun p => p.rktp_partition == partition)

/-- rd_kafka_toppar_desired_get: scan rkt_desp for `partition`; on a hit
the returned handle carries a bumped refcount (rd_kafka_toppar_keep). -/
def rd_kafka_toppar_desired_get (rkt : Topic) (partition : Int) : Option Part :=
  (desiredFind rkt.rkt_desp partition).map (fun p => { p with rc := p.rc + 1 })

/-- rd_kafka_toppar_get: `rkt_p[partition]` when `0 <= partition <
rkt_partition_cnt`; else the UA toppar when `ua_on_miss`, else NULL.  The
returned toppar's refcount is bumped. -/
def rd_kafka_toppar_get (rkt : Topic) (partition : Int) (ua_on_miss : Bool) :
    Option Part :=
  if 0 ≤ partition ∧ partition < (rkt.rkt_partition_cnt : Int) then
    (rkt.rkt_p[partition.toNat]?).map (fun p => { p with rc := p.rc + 1 })
  else if ua_on_miss then
    rkt.rkt_ua.map (fun p => { p with rc := p.rc + 1 })
  else
    none

/-- rd_kafka_toppar_desired_del: under the partition lock, return at once
when DESIRED is not set; otherwise clear DESIRED, and when UNKNOWN is also
set clear it and unlink the partition from rkt_desp; finally call
rd_kafka_toppar_destroy once.  The result is (updated topic, updated
partition, number of reference releases performed). -/
def rd_kafka_toppar_desired_del (rkt : Topic) (p : Part) : Topic × Part × Nat :=
  if p.desired = false then
    (rkt, p, 0)
  else
    if p.unknown = true then
      ({ rkt with rkt_desp := rkt.rkt_desp.eraseP (fun q => q.oid == p.oid) },
       { p with desired := false, unknown := false, rc := p.rc - 1 }, 1)
    else
      (rkt, { p with desired := false, rc := p.rc - 1 }, 1)

/-- The first loop of rd_kafka_topic_partition_cnt_update
(`for (i = 0 ; i < partition_cnt ; i++)`): build the new partition array.
`i` is the loop counter, `k` the number of iterations left
(`partition_cnt - i`), `desp` the current rkt_desp (mutated as desired
partitions are absorbed) and `fresh` the next allocation identity.  For an
existing index the old `rkt_p[i]` is moved in place; for a new index a hit
in the desired list is taken over with UNKNOWN cleared (refcount bumped by
rd_kafka_toppar_desired_get) and unlinked from the list, and a miss
allocates a fresh toppar.  Returns (new array tail, final desp, next
allocation id). -/
def cntUpdateBuild (rkt : Topic) (i k : Nat) (desp : List Part) (fresh : Nat) :
    List Part × List Part × Nat :=
  match k with
  | 0 => ([], desp, fresh)
  | Nat.succ k =>
    if i < rkt.rkt_partition_cnt then
      let rest := cntUpdateBuild rkt (i + 1) k desp fresh
      (rkt.rkt_p.getD i junkPart :: rest.1, rest.2.1, rest.2.2)
    else
      match desiredFind desp (i : Int) with
      | some p =>
        let rest := cntUpdateBuild rkt (i + 1) k
            (desp.eraseP (fun q => q.oid == p.oid)) fresh
        ({ p with unknown := false, rc := p.rc + 1 } :: rest.1, rest.2.1, rest.2.2)
      | none =>
        let rest := cntUpdateBuild rkt (i + 1) k desp (fresh + 1)
        (rd_kafka_toppar_new fresh (i : Int) :: rest.1, rest.2.1, rest.2.2)

/-- The second loop of rd_kafka_topic_partition_cnt_update
(`for (; i < rkt->rkt_partition_cnt ; i++)`): remove the excessive
partitions `old` (= the old `rkt_p` past the new count).  Each removed
partition's messages are moved to `rktp_ua` when that handle is non-NULL
(rd_kafka_toppar_move_msgs) and purged otherwise; a DESIRED partition is
re-inserted at the tail of the desired list with UNKNOWN set; the array's
reference is released (rd_kafka_toppar_destroy).  Returns the final UA
handle and desired list. -/
def cntUpdateShrink (rktp_ua : Option Part) (old desp : List Part) :
    Option Part × List Part :=
  match old with
  | [] => (rktp_ua, desp)
  | p :: rest =>
    let step : Option Part × Part :=
      match rktp_ua with
      | some ua =>
        let cc := rd_kafka_msgq_concat ua.msgq p.msgq
        (some { ua with msgq := cc.1 }, { p with msgq := cc.2 })
      | none => (none, { p with msgq := rd_kafka_msgq_purge p.msgq })
    let p1 := step.2
    let desp1 :=
      if p1.desired = true then
        desp ++ [{ p1 with unknown := true, rc := p1.rc - 1 }]
      else desp
    cntUpdateShrink step.1 rest desp1

/-- rd_kafka_topic_partition_cnt_update, from the point where
rd_kafka_topic_find has returned the topic (a missing topic returns -1
before this state is touched).  `fresh` supplies allocation identities for
newly created toppars.  Returns (return value: 0 unchanged / 1 changed,
updated topic, next allocation id).  The UA handle for the removal loop is
obtained exactly as in the source:
`rd_kafka_toppar_get(rkt, RD_KAFKA_PARTITION_UA, 0)`; the final
rd_kafka_toppar_destroy on that handle undoes the handle's refcount bump,
so the topic's rkt_ua keeps the queue produced by the removal loop. -/
def rd_kafka_topic_partition_cnt_update (rkt : Topic) (partition_cnt : Nat)
    (fresh : Nat) : Int × Topic × Nat :=
  if rkt.rkt_partition_cnt = partition_cnt then
    (0, rkt, fresh)
  else
    let b := cntUpdateBuild rkt 0 partition_cnt rkt.rkt_desp fresh
    let rktp_ua := rd_kafka_toppar_get rkt RD_KAFKA_PARTITION_UA false
    let s := cntUpdateShrink rktp_ua (rkt.rkt_p.drop partition_cnt) b.2.1
    let ua2 : Option Part :=
      match s.1 with
      | some u => some { u with rc := u.rc - 1 }
      | none => rkt.rkt_ua
    (1,
     { rkt with
       rkt_p := b.1
       rkt_partition_cnt := partition_cnt
       rkt_desp := s.2
       rkt_ua := ua2 },
     b.2.2)

/-- rd_kafka_topic_assign_uas, from the point where the topic and its UA
toppar have been found.  `pok m = false` models the external
rd_kafka_msg_partitioner returning -1 for `m` (partition unavailable);
messages it accepts are enqueued on their target partitions and leave the
UA queue.  The UA queue is first move-assigned into the local `uas`; after
partitioning, a non-empty `failed` queue is put back at the UA queue's
head by concatenating the UA queue onto `failed` and move-assigning the
result into the UA queue.  `late` is the UA queue's content at that point:
empty in a sequential run, arbitrary when producers enqueued to UA in
between.  Returns the final UA queue. -/
def rd_kafka_topic_assign_uas (pok : Msg → Bool) (ua late : Msgq) : Msgq :=
  let uas := (rd_kafka_msgq_move msgqInit ua).1
  let failed := uas.msgs.foldl
      (fun fq m => if pok m then fq else rd_kafka_msgq_enq fq m) msgqInit
  if 0 < failed.cnt then
    (rd_kafka_msgq_move late (rd_kafka_msgq_concat failed late).1).1
  else
    late

/-- State for rd_kafka_toppar_broker_delegate over a universe of `n`
partitions: each partition's leader pointer `rktp_leader` (a broker node
id, or none), each broker `B`'s intrusive partition list `rkb_toppars`
and counter `rkb_toppar_cnt`, each partition's message queue, and the
partition / broker reference counters manipulated by delegation. -/
structure BrokerSt (n : Nat) where
  leader : Fin n → Option Nat
  blist : Nat → List (Fin n)
  bcnt : Nat → Nat
  msgq : Fin n → Msgq
  prc : Fin n → Nat
  brc : Nat → Nat

/-- Initial state: no partition has a leader and no broker lists any
partition; each partition holds its container's single reference. -/
def brokerInit (n : Nat) : BrokerSt n :=
  ⟨fun _ => none, fun _ => [], fun _ => 0, fun _ => msgqInit,
   fun _ => 1, fun _ => 1⟩

/-- The undelegation block of rd_kafka_toppar_broker_delegate: under the
old broker's toppars lock, TAILQ_REMOVE the partition from
`rkb_toppars`, decrement `rkb_toppar_cnt`, clear `rktp_leader`, then
release the list's partition reference (rd_kafka_toppar_destroy) and the
partition's broker reference (rd_kafka_broker_destroy). -/
def brokerUnlink (st : BrokerSt n) (p : Fin n) (old_rkb : Nat) : BrokerSt n :=
  { st with
    blist := fun b => if b = old_rkb then (st.blist old_rkb).erase p else st.blist b
    bcnt := fun b => if b = old_rkb then st.bcnt old_rkb - 1 else st.bcnt b
    leader := fun q => if q = p then none else st.leader q
    prc := fun q => if q = p then st.prc q - 1 else st.prc q
    brc := fun b => if b = old_rkb then st.brc b - 1 else st.brc b }

/-- The delegation block of rd_kafka_toppar_broker_delegate: under the new
broker's toppars lock, take a partition reference for the list
(rd_kafka_toppar_keep), TAILQ_INSERT_TAIL into `rkb_toppars`, increment
`rkb_toppar_cnt`, set `rktp_leader`, and take a broker reference
(rd_kafka_broker_keep). -/
def brokerLink (st : BrokerSt n) (p : Fin n) (b : Nat) : BrokerSt n :=
  { st with
    blist := fun c => if c = b then st.blist b ++ [p] else st.blist c
    bcnt := fun c => if c = b then st.bcnt b + 1 else st.bcnt c
    leader := fun q => if q = p then some b else st.leader q
    prc := fun q => if q = p then st.prc q + 1 else st.prc q
    brc := fun c => if c = b then st.brc c + 1 else st.brc c }

/-- rd_kafka_toppar_broker_delegate: a no-op when `rkb` is already the
leader; otherwise unlink from the current leader (if any), then link to
`rkb` (if non-NULL).  The transient rd_kafka_toppar_keep on entry is
cancelled exactly by the rd_kafka_toppar_destroy on exit and is elided
from the embedding. -/
def rd_kafka_toppar_broker_delegate (st : BrokerSt n) (p : Fin n)
    (rkb : Option Nat) : BrokerSt n :=
  if st.leader p = rkb then st
  else
    let st1 :=
      match st.leader p with
      | some old_rkb => brokerUnlink st p old_rkb
      | none => st
    match rkb with
    | some b => brokerLink st1 p b
    | none => st1

/-- Partition as seen by the leader-update path rd_kafka_topic_update:
its id within the topic's dense array, its current leader's node id (none
when no broker is delegated) and its message queue.  The broker-list side
of delegation is the BrokerSt model above; here delegation is reflected
in the leader field. -/
structure PartU where
  pid : Nat
  leader : Option Int
  msgq : Msgq
deriving DecidableEq, Repr

/-- Topic as seen by rd_kafka_topic_update: its name and dense partition
array (`rkt_partition_cnt` = `parts.length`, invariant 1 of the spec). -/
structure TopicU where
  tname : String
  parts : List PartU
deriving DecidableEq, Repr

/-- The world rd_kafka_topic_update runs against: the client's topic
registry, the node ids of the known brokers (rd_kafka_broker_find_by_nodeid
succeeds exactly on these; the broker objects themselves are external),
and the number of asynchronous rd_kafka_topic_leader_query requests
fired. -/
structure World where
  topics : List TopicU
  brokers : List Int
  leaderQueries : Nat
deriving DecidableEq, Repr

/-- Outcome of one rd_kafka_topic_update call.  The function returns void
in C; `assertFailed` models the process-aborting `assert(rktp)` that
fires when the metadata names a partition id outside
`[0, rkt_partition_cnt)`. -/
inductive UpdateOutcome where
  | ignored
  | assertFailed
  | delegated
  | noChange
deriving DecidableEq, Repr

/-- Leader (re)binding of one partition of one topic, as performed by the
rd_kafka_toppar_broker_delegate calls made from rd_kafka_topic_update:
only the partition's leader field changes. -/
def setPartLeader (w : World) (tn : String) (pid : Nat) (rkb : Option Int) :
    World :=
  { w with
    topics := w.topics.map (fun t =>
      if t.tname == tn then
        { t with parts := t.parts.map (fun q =>
            if q.pid == pid then { q with leader := rkb } else q) }
      else t) }

/-- rd_kafka_topic_update: find the topic (absent → ignore), find the
broker by node id, look the partition up with
`rd_kafka_toppar_get(rkt, partition, 0)` and `assert` the result, then:
leader -1 → undelegate and fire a leader query; unknown broker →
undelegate and fire a leader query; unchanged leader → no-op; otherwise
delegate to the found broker. -/
def rd_kafka_topic_update (w : World) (topic : String) (partition leader : Int) :
    UpdateOutcome × World :=
  match w.topics.find? (fun t => t.tname == topic) with
  | none => (.ignored, w)
  | some rkt =>
    let rkb : Option Int := if w.brokers.contains leader then some leader else none
    let rktp : Option PartU :=
      if 0 ≤ partition ∧ partition < (rkt.parts.length : Int) then
        rkt.parts[partition.toNat]?
      else none
    match rktp with
    | none => (.assertFailed, w)
    | some part =>
      if leader = -1 then
        (.delegated,
         { setPartLeader w topic part.pid none with
           leaderQueries := w.leaderQueries + 1 })
      else
        match rkb with
        | none =>
          (.delegated,
           { setPartLeader w topic part.pid none with
             leaderQueries := w.leaderQueries + 1 })
        | some b =>
          if part.leader = some b then (.noChange, w)
          else (.delegated, setPartLeader w topic part.pid (some b))

/-- Topic configuration rd_kafka_topic_conf_t, restricted to the fields
the core reads: the two timeouts validated by rd_kafka_topic_new and the
partitioner function pointer (none models NULL). -/
structure TopicConf where
  message_timeout_ms : Int
  request_timeout_ms : Int
  partitioner : Option Nat
deriving DecidableEq, Repr

/-- Modelled from the spec: rd_kafka_topic_conf_new (external) — a fresh
default configuration.  Its field values are irrelevant here: the branch
that calls it inside rd_kafka_topic_new is proved unreachable. -/
def rd_kafka_topic_conf_new : TopicConf := ⟨0, 0, none⟩

/-- Token for the external default partitioner
rd_kafka_msg_partitioner_random (a function pointer in C). -/
def rd_kafka_msg_partitioner_random : Nat := 0

/-- Topic object as seen by the registry: allocation identity `tid` (the C
object's address), the immutable name `rkt_topic`, the refcount and the
stored configuration. -/
structure TopicR where
  tid : Nat
  rkt_topic : String
  refcnt : Nat
  conf : TopicConf
deriving DecidableEq, Repr

/-- Client handle rd_kafka_t, restricted to the topic registry: the
rk_topics list, the rk_topic_cnt counter, the client's own refcount and
the next allocation identity. -/
structure Client where
  rk_topics : List TopicR
  rk_topic_cnt : Nat
  rk_refcnt : Nat
  nextTid : Nat
deriving DecidableEq, Repr

/-- Refcount bump (rd_kafka_topic_keep) of the registry entry with
allocation identity `tid0`, applied pointwise to the registry list to
model the in-place increment on the found object. -/
def bumpTid (tid0 : Nat) (u : TopicR) : TopicR :=
  if u.tid == tid0 then { u with refcnt := u.refcnt + 1 } else u

/-- rd_kafka_topic_find: under the client lock, linear scan of rk_topics
by name; on a hit the topic's refcount is bumped (rd_kafka_topic_keep).
Returns the found topic's identity and the updated client. -/
def rd_kafka_topic_find (rk : Client) (topic : String) : Option Nat × Client :=
  match rk.rk_topics.find? (fun t => t.rkt_topic == topic) with
  | some t =>
    (some t.tid, { rk with rk_topics := rk.rk_topics.map (bumpTid t.tid) })
  | none => (none, rk)

/-- Result of rd_kafka_topic_new.  `einval` models the NULL return with
errno = EINVAL; `nullDeref` models the undefined behaviour of reading
`conf->message_timeout_ms` through a NULL conf during validation;
`ret tid defaulted` models a returned topic handle, with `defaulted`
recording whether the `if (!conf) conf = rd_kafka_topic_conf_new()`
branch ran in this call. -/
inductive TopicNewResult where
  | einval
  | nullDeref
  | ret (tid : Nat) (defaulted : Bool)
deriving DecidableEq, Repr

/-- rd_kafka_topic_new: validate
`!topic || conf->message_timeout_ms <= 0 || conf->request_timeout_ms <= 0`
(note `!topic` checks for a NULL pointer and short-circuits before conf
is read; a non-NULL empty name passes); return an existing topic with its
refcount bumped (rd_kafka_topic_find); otherwise allocate the topic,
default a NULL conf (branch proved unreachable), default the partitioner
to rd_kafka_msg_partitioner_random, keep the topic and the client, create
the UA toppar (whose rd_kafka_topic_keep makes the fresh topic's refcount
2), and TAILQ_INSERT_TAIL into rk_topics. -/
def rd_kafka_topic_new (rk : Client) (topic : Option String)
    (conf : Option TopicConf) : TopicNewResult × Client :=
  match topic with
  | none => (.einval, rk)
  | some tname =>
    match conf with
    | none => (.nullDeref, rk)
    | some c =>
      if c.message_timeout_ms ≤ 0 ∨ c.request_timeout_ms ≤ 0 then
        (.einval, rk)
      else
        match rd_kafka_topic_find rk tname with
        | (some tid, rk1) => (.ret tid false, rk1)
        | (none, rk1) =>
          let cd : TopicConf × Bool :=
            match conf with
            | none => (rd_kafka_topic_conf_new, true)
            | some c0 => (c0, false)
          let c1 := { cd.1 with
            partitioner := some (cd.1.partitioner.getD rd_kafka_msg_partitioner_random) }
          let t : TopicR :=
            { tid := rk1.nextTid, rkt_topic := tname, refcnt := 2, conf := c1 }
          (.ret t.tid cd.2,
           { rk1 with
             rk_topics := rk1.rk_topics ++ [t]
             rk_topic_cnt := rk1.rk_topic_cnt + 1
             rk_refcnt := rk1.rk_refcnt + 1
             nextTid := rk1.nextTid + 1 })

/-- Lookup of a topic object by its allocation identity, used to state
refcount facts about a specific object. -/
def topicByTid (rk : Client) (tid : Nat) : Option TopicR :=
  rk.rk_topics.find? (fun t => t.tid == tid)

/-- The topic object rd_kafka_topic_new allocates on a registry miss: a
fresh identity, the given name, refcount 2 (the creation keep plus the UA
toppar's topic keep) and the stored configuration with the partitioner
defaulted. -/
def freshTopic (rk : Client) (nm : String) (c : TopicConf) : TopicR :=
  ⟨rk.nextTid, nm, 2,
   ⟨c.message_timeout_ms, c.request_timeout_ms,
    some (c.partitioner.getD rd_kafka_msg_partitioner_random)⟩⟩

/-- The client state after rd_kafka_topic_new creates and registers a new
topic: TAILQ_INSERT_TAIL into rk_topics, rk_topic_cnt incremented, the
client kept once (rd_kafka_keep), next allocation identity advanced. -/
def clientAfterCreate (rk : Client) (nm : String) (c : TopicConf) : Client :=
  { rk with
    rk_topics := rk.rk_topics ++ [freshTopic rk nm c]
    rk_topic_cnt := rk.rk_topic_cnt + 1
    rk_refcnt := rk.rk_refcnt + 1
    nextTid := rk.nextTid + 1 }

/-- Concrete topic state of spec scenario S3: three partitions, two
messages queued on parts[2], an empty UA slot present, empty desired
list. -/
def rktS3 : Topic :=
  ⟨3,
   [⟨0, 0, false, false, msgqInit, 1⟩,
    ⟨1, 1, false, false, msgqInit, 1⟩,
    ⟨2, 2, false, false, ⟨[⟨100, 1⟩, ⟨101, 1⟩], 2, 2⟩, 1⟩],
   some ⟨3, -1, false, false, msgqInit, 1⟩,
   []⟩

/-- C6 (amended): rd_kafka_toppar_desired_del is a no-op when DESIRED is
not set; when DESIRED is set it clears DESIRED, removes the partition
from rkt_desp (also clearing UNKNOWN) iff UNKNOWN is set, and releases
exactly one reference in either DESIRED case — also when the partition
was not removed from the desired list.  (The claim said the release
happens only on actual removal; the code's rd_kafka_toppar_destroy call
is unconditional once DESIRED was set.) -/
theorem desired_del_amended (rkt : Topic) (p : Part) :
    (p.desired = false → rd_kafka_toppar_desired_del rkt p = (rkt, p, 0)) ∧
    (p.desired = true → p.unknown = true →
      rd_kafka_toppar_desired_del rkt p =
        ({ rkt with rkt_desp := rkt.rkt_desp.eraseP (fun q => q.oid == p.oid) },
         { p with desired := false, unknown := false, rc := p.rc - 1 }, 1)) ∧
    (p.desired = true → p.unknown = false →
      rd_kafka_toppar_desired_del rkt p =
        (rkt, { p with desired := false, rc := p.rc - 1 }, 1)) := by
  refine ⟨fun h => ?_, fun h hu => ?_, fun h hu => ?_⟩
  · simp [rd_kafka_toppar_desired_del, h]
  · simp [rd_kafka_toppar_desired_del, h, hu]
  · simp [rd_kafka_toppar_desired_del, h, hu]

/-- C6 (witness): a DESIRED|UNKNOWN partition is unlinked from the desired
list, both flags cleared, one reference released. -/
theorem desired_del_amended_witness :
    rd_kafka_toppar_desired_del ⟨0, [], none, [⟨4, 2, true, true, msgqInit, 3⟩]⟩
        ⟨4, 2, true, true, msgqInit, 3⟩ =
      (⟨0, [], none, []⟩, ⟨4, 2, false, false, msgqInit, 2⟩, 1) := by
  have h := (desired_del_amended ⟨0, [], none, [⟨4, 2, true, true, msgqInit, 3⟩]⟩
      ⟨4, 2, true, true, msgqInit, 3⟩).2.1 rfl rfl
  exact h.trans (by decide)

/-- C6 (counterexample): on a partition that is DESIRED but not UNKNOWN,
rd_kafka_toppar_desired_del performs its one reference release even
though nothing is removed from the desired list — refuting the claim
that the release happens only when the partition was actually removed. -/
theorem desired_del_releases_without_removal :
    (⟨5, 3, true, false, msgqInit, 2⟩ : Part).desired = true ∧
    (⟨5, 3, true, false, msgqInit, 2⟩ : Part).unknown = false ∧
    (rd_kafka_toppar_desired_del ⟨0, [], none, []⟩
        ⟨5, 3, true, false, msgqInit, 2⟩).2.2 = 1 ∧
    (rd_kafka_toppar_desired_del ⟨0, [], none, []⟩
        ⟨5, 3, true, false, msgqInit, 2⟩).1 = ⟨0, [], none, []⟩ := by
  decide

/-- C5 (amended): rd_kafka_topic_new fails synchronously with EINVAL and
mutates no state when the name is NULL or when a (non-NULL) configuration
has a non-positive message_timeout_ms or request_timeout_ms.  An
empty-but-non-NULL name is not rejected: the code's `!topic` is a NULL
test, not an emptiness test. -/
theorem topic_new_invalid_amended (rk : Client) (topic : Option String)
    (conf : Option TopicConf)
    (h : topic = none ∨ ∃ c, conf = some c ∧
        (c.message_timeout_ms ≤ 0 ∨ c.request_timeout_ms ≤ 0)) :
    rd_kafka_topic_new rk topic conf = (.einval, rk) := by
  rcases h with h | ⟨c, hc, hbad⟩
  · subst h; rfl
  · subst hc
    cases topic with
    | none => rfl
    | some tname => simp [rd_kafka_topic_new, hbad]

/-- C5 (witness): a NULL name fails with EINVAL and leaves the client
untouched. -/
theorem topic_new_invalid_amended_witness :
    rd_kafka_topic_new ⟨[], 0, 0, 0⟩ none none = (.einval, ⟨[], 0, 0, 0⟩) :=
  topic_new_invalid_amended ⟨[], 0, 0, 0⟩ none none (Or.inl rfl)

/-- C5 (counterexample): with the empty (non-NULL) name and positive
timeouts, rd_kafka_topic_new succeeds and registers a topic named "" —
the claim that an empty name fails with InvalidConfig and mutates nothing
is false on the code. -/
theorem topic_new_empty_name_accepted :
    (rd_kafka_topic_new ⟨[], 0, 0, 0⟩ (some "") (some ⟨1, 1, none⟩)).1 =
        .ret 0 false ∧
    (rd_kafka_topic_new ⟨[], 0, 0, 0⟩ (some "") (some ⟨1, 1, none⟩)).2.rk_topics =
        [⟨0, "", 2, ⟨1, 1, some 0⟩⟩] := by
  decide

/-- C10: rd_kafka_topic_new's validation reads conf->message_timeout_ms
before the `if (!conf)` defaulting branch can run: with a non-NULL name
and a NULL conf the validation read faults, so a non-NULL conf is a
precondition of passing validation, and the defaulting branch is
unreachable in any call that returns a topic. -/
theorem topic_new_conf_deref_before_default (rk : Client)
    (topic : Option String) (conf : Option TopicConf) :
    (topic ≠ none → conf = none →
        (rd_kafka_topic_new rk topic conf).1 = .nullDeref) ∧
    (∀ tid d rk2, rd_kafka_topic_new rk topic conf = (.ret tid d, rk2) →
        conf ≠ none ∧ d = false) := by
  constructor
  · intro ht hc
    subst hc
    cases topic with
    | none => exact absurd rfl ht
    | some tname => rfl
  · intro tid d rk2 h
    cases topic with
    | none => simp [rd_kafka_topic_new] at h
    | some tname =>
      cases conf with
      | none => simp [rd_kafka_topic_new] at h
      | some c =>
        refine ⟨by simp, ?_⟩
        simp only [rd_kafka_topic_new] at h
        split at h
        · simp at h
        · split at h
          · simp only [Prod.mk.injEq, TopicNewResult.ret.injEq] at h
            exact h.1.2.symm
          · simp only [Prod.mk.injEq, TopicNewResult.ret.injEq] at h
            exact h.1.2.symm

/-- C10 (witness): with a non-NULL name and NULL conf, validation faults
on the conf dereference. -/
theorem topic_new_conf_deref_witness :
    (some "t" ≠ (none : Option String)) ∧
    (rd_kafka_topic_new ⟨[], 0, 0, 0⟩ (some "t") none).1 = .nullDeref :=
  ⟨by simp,
   (topic_new_conf_deref_before_default ⟨[], 0, 0, 0⟩ (some "t") none).1
     (by simp) rfl⟩

/-- C1 (amended): when the topic exists but the metadata's partition id
lies outside [0, rkt_partition_cnt), rd_kafka_topic_update does not
silently create the missing partition — but it reports no error either:
`assert(rktp)` fires (modelled as the assertFailed outcome, a process
abort) and the client state is left unchanged. -/
theorem topic_update_out_of_range_asserts (w : World) (tname : String)
    (partition leader : Int) (rkt : TopicU)
    (hfind : w.topics.find? (fun t => t.tname == tname) = some rkt)
    (hout : ¬ (0 ≤ partition ∧ partition < (rkt.parts.length : Int))) :
    rd_kafka_topic_update w tname partition leader = (.assertFailed, w) := by
  unfold rd_kafka_topic_update
  rw [hfind]
  simp [hout]

/-- C1 (witness): a topic with one partition receiving metadata for
partition 3 aborts on the assertion. -/
theorem topic_update_out_of_range_witness :
    rd_kafka_topic_update ⟨[⟨"u", [⟨0, none, msgqInit⟩]⟩], [], 0⟩ "u" 3 2 =
      (.assertFailed, ⟨[⟨"u", [⟨0, none, msgqInit⟩]⟩], [], 0⟩) :=
  topic_update_out_of_range_asserts _ "u" 3 2 ⟨"u", [⟨0, none, msgqInit⟩]⟩
    (by decide) (by decide)

/-- C1 (counterexample): a known topic with one partition receiving a
metadata leader update for partition 5 hits `assert(rktp)` — the process
crashes and nothing is reported to the caller, refuting the claim that an
InconsistentState error is reported and the process does not crash. -/
theorem topic_update_out_of_range_crashes :
    rd_kafka_topic_update ⟨[⟨"t", [⟨0, none, msgqInit⟩]⟩], [7], 0⟩ "t" 5 7 =
      (.assertFailed, ⟨[⟨"t", [⟨0, none, msgqInit⟩]⟩], [7], 0⟩) := by
  decide

/-- C3 (divergence): the UA handle for the removal loop of
rd_kafka_topic_partition_cnt_update is obtained with
`rd_kafka_toppar_get(rkt, RD_KAFKA_PARTITION_UA, 0)`, which by
rd_kafka_toppar_get's own definition returns NULL for every topic (the UA
sentinel -1 is outside [0, cnt) and ua_on_miss is 0), so the
`likely(rktp_ua != NULL)` move-to-UA branch is dead: shrinking 3 → 2 in
scenario S3 purges parts[2]'s two messages instead of moving them to the
(present, empty) UA queue, which stays empty. -/
theorem cnt_update_shrink_purges_instead_of_ua_move :
    (∀ rkt : Topic, rd_kafka_toppar_get rkt RD_KAFKA_PARTITION_UA false = none) ∧
    (rd_kafka_topic_partition_cnt_update rktS3 2 10).1 = 1 ∧
    (rd_kafka_topic_partition_cnt_update rktS3 2 10).2.1 =
      ⟨2,
       [⟨0, 0, false, false, msgqInit, 1⟩, ⟨1, 1, false, false, msgqInit, 1⟩],
       some ⟨3, -1, false, false, msgqInit, 1⟩,
       []⟩ := by
  refine ⟨fun rkt => ?_, by decide, by decide⟩
  have h1 : ¬ ((0 : Int) ≤ RD_KAFKA_PARTITION_UA ∧
      RD_KAFKA_PARTITION_UA < (rkt.rkt_partition_cnt : Int)) := by
    intro h
    exact absurd h.1 (by decide)
  simp [rd_kafka_toppar_get, h1]

/-- The partitioning loop of rd_kafka_topic_assign_uas builds `failed` as
the in-order subsequence of messages the partitioner rejected, with the
counters accumulated by rd_kafka_msgq_enq. -/
theorem assignUasFoldSpec (pok : Msg → Bool) (l : List Msg) (q : Msgq) :
    l.foldl (fun fq m => if pok m then fq else rd_kafka_msgq_enq fq m) q =
      ⟨q.msgs ++ l.filter (fun m => !pok m),
       q.cnt + (l.filter (fun m => !pok m)).length,
       q.mbytes + ((l.filter (fun m => !pok m)).map Msg.mbytes).sum⟩ := by
  induction l generalizing q with
  | nil => simp
  | cons m t ih =>
    by_cases hm : pok m
    · simpa [hm] using ih q
    · rw [List.foldl_cons, if_neg hm, ih]
      simp [rd_kafka_msgq_enq, hm, Nat.add_assoc, Nat.add_comm 1,
        Nat.add_left_comm m.mbytes]

/-- Evaluation of rd_kafka_topic_assign_uas: the final UA queue is the
in-order failed subsequence prepended to whatever the UA queue held when
the prepend ran. -/
theorem assign_uas_eval (pok : Msg → Bool) (ua late : Msgq) :
    rd_kafka_topic_assign_uas pok ua late =
      if 0 < (ua.msgs.filter (fun m => !pok m)).length then
        ⟨ua.msgs.filter (fun m => !pok m) ++ late.msgs,
         (ua.msgs.filter (fun m => !pok m)).length + late.cnt,
         ((ua.msgs.filter (fun m => !pok m)).map Msg.mbytes).sum + late.mbytes⟩
      else late := by
  unfold rd_kafka_topic_assign_uas
  simp only [rd_kafka_msgq_move]
  simp only [assignUasFoldSpec]
  simp [rd_kafka_msgq_concat, rd_kafka_msgq_move, msgqInit]

/-- C4: the messages the partitioner rejects are placed back in the UA
queue ahead of any later content, in their original relative order; when
every message fails partitioning the drain leaves the UA queue exactly as
it was, and a second all-failing drain is a no-op. -/
theorem assign_uas_failed_order (pok : Msg → Bool) (ua late : Msgq)
    (hwf : ua.wf) :
    (rd_kafka_topic_assign_uas pok ua late).msgs =
        ua.msgs.filter (fun m => !pok m) ++ late.msgs ∧
    ((∀ m ∈ ua.msgs, pok m = false) → late = msgqInit →
        rd_kafka_topic_assign_uas pok ua late = ua) ∧
    ((∀ m ∈ ua.msgs, pok m = false) →
        rd_kafka_topic_assign_uas pok
            (rd_kafka_topic_assign_uas pok ua msgqInit) msgqInit =
          rd_kafka_topic_assign_uas pok ua msgqInit) := by
  obtain ⟨hcnt, hbytes⟩ := hwf
  have h1 : (rd_kafka_topic_assign_uas pok ua late).msgs =
      ua.msgs.filter (fun m => !pok m) ++ late.msgs := by
    rw [assign_uas_eval]
    by_cases hpos : 0 < (ua.msgs.filter (fun m => !pok m)).length
    · simp [hpos]
    · have : ua.msgs.filter (fun m => !pok m) = [] := by
        rcases List.length_eq_zero.mp (Nat.eq_zero_of_not_pos hpos) with h
        exact h
      simp [hpos, this]
  have h2 : (∀ m ∈ ua.msgs, pok m = false) →
      rd_kafka_topic_assign_uas pok ua msgqInit = ua := by
    intro hall
    have hfilter : ua.msgs.filter (fun m => !pok m) = ua.msgs :=
      List.filter_eq_self.mpr (fun m hm => by simp [hall m hm])
    rw [assign_uas_eval, hfilter]
    rcases ua with ⟨msgs, cnt, mb⟩
    simp only at hcnt hbytes
    subst hcnt hbytes
    cases msgs with
    | nil => simp [msgqInit]
    | cons m t => simp [msgqInit]
  refine ⟨h1, fun hall hlt => by rw [hlt]; exact h2 hall, fun hall => ?_⟩
  rw [h2 hall]
  exact h2 hall

/-- C4 (witness): a two-message UA queue where every message fails
partitioning is left unchanged by the drain. -/
theorem assign_uas_failed_order_witness :
    (⟨[⟨0, 1⟩, ⟨1, 2⟩], 2, 3⟩ : Msgq).wf ∧
    rd_kafka_topic_assign_uas (fun _ => false) ⟨[⟨0, 1⟩, ⟨1, 2⟩], 2, 3⟩
        msgqInit = ⟨[⟨0, 1⟩, ⟨1, 2⟩], 2, 3⟩ :=
  ⟨⟨rfl, rfl⟩,
   (assign_uas_failed_order (fun _ => false) ⟨[⟨0, 1⟩, ⟨1, 2⟩], 2, 3⟩ msgqInit
       ⟨rfl, rfl⟩).2.1 (fun m _ => rfl) rfl⟩

/-- Consistency of leader pointers and broker partition lists: every
broker's list is duplicate-free, lists exactly the partitions whose
leader pointer names it, and its rkb_toppar_cnt equals the list's
length. -/
def BrokerInv (st : BrokerSt n) : Prop :=
  ∀ B : Nat, (st.blist B).Nodup ∧
    (∀ q : Fin n, q ∈ st.blist B ↔ st.leader q = some B) ∧
    st.bcnt B = (st.blist B).length

theorem brokerInit_inv (n : Nat) : BrokerInv (brokerInit n) := by
  intro B
  refine ⟨List.nodup_nil, fun q => ?_, rfl⟩
  simp [brokerInit]

theorem brokerUnlink_inv (st : BrokerSt n) (p : Fin n) (old_rkb : Nat)
    (h : BrokerInv st) (hl : st.leader p = some old_rkb) :
    BrokerInv (brokerUnlink st p old_rkb) ∧
      (brokerUnlink st p old_rkb).leader p = none := by
  have hmem : p ∈ st.blist old_rkb := ((h old_rkb).2.1 p).mpr hl
  constructor
  · intro B
    simp only [brokerUnlink]
    by_cases hB : B = old_rkb
    · refine ⟨?_, fun q => ?_, ?_⟩
      · simp only [hB, if_true, eq_self_iff_true]
        exact (h old_rkb).1.erase p
      · simp only [hB, if_true, eq_self_iff_true]
        rw [(h old_rkb).1.mem_erase_iff]
        by_cases hqp : q = p
        · simp [hqp]
        · simp [hqp, (h old_rkb).2.1 q]
      · simp only [hB, if_true, eq_self_iff_true]
        rw [List.length_erase_of_mem hmem, (h old_rkb).2.2]
    · refine ⟨?_, fun q => ?_, ?_⟩
      · simp only [if_neg hB]
        exact (h B).1
      · simp only [if_neg hB]
        by_cases hqp : q = p
        · simp only [hqp, if_true, eq_self_iff_true]
          constructor
          · intro hq
            have h2 := ((h B).2.1 p).mp hq
            rw [hl] at h2
            exact absurd (Option.some.inj h2) (fun e => hB e.symm)
          · intro hq
            cases hq
        · simp only [if_neg hqp]
          exact (h B).2.1 q
      · simp only [if_neg hB]
        exact (h B).2.2
  · simp [brokerUnlink]

theorem brokerLink_inv (st : BrokerSt n) (p : Fin n) (b : Nat)
    (h : BrokerInv st) (hl : st.leader p = none) :
    BrokerInv (brokerLink st p b) := by
  have hnot : p ∉ st.blist b := by
    intro hmem
    rw [((h b).2.1 p)] at hmem
    simp [hl] at hmem
  intro B
  simp only [brokerLink]
  by_cases hB : B = b
  · refine ⟨?_, fun q => ?_, ?_⟩
    · simp only [hB, if_true, eq_self_iff_true]
      simp [List.nodup_append, (h b).1, hnot]
    · simp only [hB, if_true, eq_self_iff_true, List.mem_append,
        List.mem_singleton]
      by_cases hqp : q = p
      · simp [hqp, hnot]
      · simp only [if_neg hqp, hqp, or_false]
        exact (h b).2.1 q
    · simp only [hB, if_true, eq_self_iff_true]
      rw [List.length_append, (h b).2.2]
      rfl
  · refine ⟨?_, fun q => ?_, ?_⟩
    · simp only [if_neg hB]
      exact (h B).1
    · simp only [if_neg hB]
      by_cases hqp : q = p
      · simp only [hqp, if_true, eq_self_iff_true]
        constructor
        · intro hq
          have h2 := ((h B).2.1 p).mp hq
          rw [hl] at h2
          cases h2
        · intro hq
          exact absurd (Option.some.inj hq) (fun e => hB e.symm)
      · simp only [if_neg hqp]
        exact (h B).2.1 q
    · simp only [if_neg hB]
      exact (h B).2.2

/-- Each rd_kafka_toppar_broker_delegate call preserves the
leader/partition-list consistency invariant. -/
theorem broker_delegate_preserves (st : BrokerSt n) (p : Fin n)
    (rkb : Option Nat) (h : BrokerInv st) :
    BrokerInv (rd_kafka_toppar_broker_delegate st p rkb) := by
  unfold rd_kafka_toppar_broker_delegate
  by_cases hg : st.leader p = rkb
  · simpa [hg] using h
  · rw [if_neg hg]
    cases hL : st.leader p with
    | none =>
      cases rkb with
      | none => exact absurd (hL.trans rfl) hg
      | some b => exact brokerLink_inv st p b h hL
    | some old_rkb =>
      obtain ⟨h1, hl1⟩ := brokerUnlink_inv st p old_rkb h hL
      cases rkb with
      | none => exact h1
      | some b => exact brokerLink_inv _ p b h1 hl1

/-- C7: starting from the state with no leaders and empty broker lists,
after any sequence of rd_kafka_toppar_broker_delegate calls every broker
lists exactly the partitions whose leader pointer names it — membership
is equivalent to the leader pointer and the list's length equals the
number of such partitions — and delegating a partition to its current
leader changes nothing. -/
theorem broker_delegate_bijection (n : Nat)
    (calls : List (Fin n × Option Nat)) :
    (∀ B : Nat,
      ((calls.foldl (fun s c => rd_kafka_toppar_broker_delegate s c.1 c.2)
          (brokerInit n)).blist B).length =
        (Finset.univ.filter (fun q : Fin n =>
          (calls.foldl (fun s c => rd_kafka_toppar_broker_delegate s c.1 c.2)
              (brokerInit n)).leader q = some B)).card ∧
      (∀ q : Fin n,
        q ∈ (calls.foldl (fun s c => rd_kafka_toppar_broker_delegate s c.1 c.2)
            (brokerInit n)).blist B ↔
          (calls.foldl (fun s c => rd_kafka_toppar_broker_delegate s c.1 c.2)
              (brokerInit n)).leader q = some B)) ∧
    (∀ (s : BrokerSt n) (p : Fin n),
      rd_kafka_toppar_broker_delegate s p (s.leader p) = s) := by
  have hfold : ∀ (cs : List (Fin n × Option Nat)) (s : BrokerSt n),
      BrokerInv s →
      BrokerInv (cs.foldl (fun s c => rd_kafka_toppar_broker_delegate s c.1 c.2) s) := by
    intro cs
    induction cs with
    | nil => intro s hs; exact hs
    | cons c t ih =>
      intro s hs
      exact ih _ (broker_delegate_preserves s c.1 c.2 hs)
  have hinv := hfold calls (brokerInit n) (brokerInit_inv n)
  constructor
  · intro B
    obtain ⟨hnd, hmem, _⟩ := hinv B
    refine ⟨?_, hmem⟩
    rw [← List.toFinset_card_of_nodup hnd]
    congr 1
    ext q
    simp [hmem q]
  · intro s p
    simp [rd_kafka_toppar_broker_delegate]

/-- Mapping the leader-rebind over a partition list leaves every
partition's message queue unchanged. -/
theorem partsMsgqMap (ps : List PartU) (pid : Nat) (rkb : Option Int) :
    (ps.map (fun q => if q.pid == pid then { q with leader := rkb } else q)).map
        PartU.msgq = ps.map PartU.msgq := by
  induction ps with
  | nil => rfl
  | cons q t ih =>
    simp only [List.map_cons]
    rw [ih]
    by_cases hq : (q.pid == pid) = true
    · simp only [if_pos hq]
    · simp only [if_neg hq]

/-- setPartLeader changes leader fields only: the per-topic lists of
message queues are untouched. -/
theorem setPartLeader_msgq (w : World) (tn : String) (pid : Nat)
    (rkb : Option Int) :
    (setPartLeader w tn pid rkb).topics.map (fun tp => tp.parts.map PartU.msgq) =
      w.topics.map (fun tp => tp.parts.map PartU.msgq) := by
  have hmap : ∀ l : List TopicU,
      (l.map (fun t =>
        if t.tname == tn then
          { t with parts := t.parts.map (fun q =>
              if q.pid == pid then { q with leader := rkb } else q) }
        else t)).map (fun tp => tp.parts.map PartU.msgq) =
      l.map (fun tp => tp.parts.map PartU.msgq) := by
    intro l
    induction l with
    | nil => rfl
    | cons t ts ih =>
      by_cases ht : (t.tname == tn) = true
      · simp only [List.map_cons, if_pos ht, ih]
        rw [partsMsgqMap]
      · simp only [List.map_cons, if_neg ht, ih]
  simpa [setPartLeader] using hmap w.topics

/-- C9: rebinding a partition's leader — by rd_kafka_toppar_broker_delegate
directly, to a different broker or to none, or through a whole
rd_kafka_topic_update call — leaves every partition's msg_queue completely
unchanged: same messages, same order, same counters (the Msgq value is
preserved as a whole). -/
theorem leader_rebind_preserves_msgq :
    (∀ (n : Nat) (st : BrokerSt n) (p : Fin n) (rkb : Option Nat),
        (rd_kafka_toppar_broker_delegate st p rkb).msgq = st.msgq) ∧
    (∀ (w : World) (t : String) (partition leader : Int),
        ((rd_kafka_topic_update w t partition leader).2).topics.map
            (fun tp => tp.parts.map PartU.msgq) =
          w.topics.map (fun tp => tp.parts.map PartU.msgq)) := by
  constructor
  · intro n st p rkb
    unfold rd_kafka_toppar_broker_delegate
    by_cases hg : st.leader p = rkb
    · rw [if_pos hg]
    · rw [if_neg hg]
      cases hL : st.leader p <;> cases rkb <;>
        simp [brokerUnlink, brokerLink]
  · intro w t partition leader
    unfold rd_kafka_topic_update
    cases hf : w.topics.find? (fun tp => tp.tname == t) with
    | none => rfl
    | some rkt =>
      dsimp only
      cases hp : (if 0 ≤ partition ∧ partition < (rkt.parts.length : Int) then
          rkt.parts[partition.toNat]? else none) with
      | none => rfl
      | some part =>
        by_cases hm1 : leader = -1
        · simp [hm1, setPartLeader_msgq]
        · by_cases hbk : w.brokers.contains leader
          · have hbk2 : leader ∈ w.brokers := by simpa using hbk
            by_cases hsame : part.leader = some leader
            · simp [hm1, hbk2, hsame]
            · simp [hm1, hbk2, hsame, setPartLeader_msgq]
          · have hbk2 : ¬ leader ∈ w.brokers := by simpa using hbk
            simp [hm1, hbk2, setPartLeader_msgq]

theorem bumpTid_rkt_topic (tid0 : Nat) (u : TopicR) :
    (bumpTid tid0 u).rkt_topic = u.rkt_topic := by
  unfold bumpTid
  split <;> rfl

theorem bumpTid_tid (tid0 : Nat) (u : TopicR) :
    (bumpTid tid0 u).tid = u.tid := by
  unfold bumpTid
  split <;> rfl

theorem find?_map_bumpTid (l : List TopicR) (tid0 : Nat) (p : TopicR → Bool)
    (hp : ∀ u, p (bumpTid tid0 u) = p u) :
    (l.map (bumpTid tid0)).find? p = (l.find? p).map (bumpTid tid0) := by
  induction l with
  | nil => rfl
  | cons a l ih =>
    by_cases ha : p a = true
    · rw [List.map_cons, List.find?_cons_of_pos _ (by rw [hp]; exact ha),
        List.find?_cons_of_pos _ ha]
      rfl
    · rw [List.map_cons, List.find?_cons_of_neg _ (by rw [hp]; exact ha),
        List.find?_cons_of_neg _ ha, ih]

theorem filter_map_bumpTid (l : List TopicR) (tid0 : Nat) (p : TopicR → Bool)
    (hp : ∀ u, p (bumpTid tid0 u) = p u) :
    ((l.map (bumpTid tid0)).filter p).length = (l.filter p).length := by
  induction l with
  | nil => rfl
  | cons a l ih =>
    rw [List.map_cons, List.filter_cons, List.filter_cons, hp]
    by_cases ha : p a = true
    · simp [ha, ih]
    · simp [ha, ih]

theorem find?_name_unique (l : List TopicR) (t0 : TopicR) (nm : String)
    (hn : (l.map TopicR.rkt_topic).Nodup) (hm : t0 ∈ l)
    (ht : t0.rkt_topic = nm) :
    l.find? (fun t => t.rkt_topic == nm) = some t0 := by
  induction l with
  | nil => cases hm
  | cons a l ih =>
    rw [List.map_cons, List.nodup_cons] at hn
    rcases List.mem_cons.mp hm with h0 | h0
    · subst h0
      exact List.find?_cons_of_pos _ (by simp [ht])
    · have ha : ¬ ((a.rkt_topic == nm) = true) := by
        intro hab
        have hanm : a.rkt_topic = nm := by simpa using hab
        exact hn.1 (by
          rw [hanm, ← ht]
          exact List.mem_map_of_mem TopicR.rkt_topic h0)
      rw [List.find?_cons_of_neg _ (by exact ha)]
      exact ih hn.2 h0

theorem find?_tid_unique (l : List TopicR) (t0 : TopicR)
    (hn : (l.map TopicR.tid).Nodup) (hm : t0 ∈ l) :
    l.find? (fun t => t.tid == t0.tid) = some t0 := by
  induction l with
  | nil => cases hm
  | cons a l ih =>
    rw [List.map_cons, List.nodup_cons] at hn
    rcases List.mem_cons.mp hm with h0 | h0
    · subst h0
      exact List.find?_cons_of_pos _ (by simp)
    · have ha : ¬ ((a.tid == t0.tid) = true) := by
        intro hab
        have hat : a.tid = t0.tid := by simpa using hab
        exact hn.1 (by
          rw [hat]
          exact List.mem_map_of_mem TopicR.tid h0)
      rw [List.find?_cons_of_neg _ (by exact ha)]
      exact ih hn.2 h0

theorem filter_name_unique_len (l : List TopicR) (t0 : TopicR) (nm : String)
    (hn : (l.map TopicR.rkt_topic).Nodup) (hm : t0 ∈ l)
    (ht : t0.rkt_topic = nm) :
    (l.filter (fun t => t.rkt_topic == nm)).length = 1 := by
  induction l with
  | nil => cases hm
  | cons a l ih =>
    rw [List.map_cons, List.nodup_cons] at hn
    rw [List.filter_cons]
    rcases List.mem_cons.mp hm with h0 | h0
    · subst h0
      rw [if_pos (by simp [ht])]
      have hnil : l.filter (fun t => t.rkt_topic == nm) = [] := by
        rw [List.filter_eq_nil_iff]
        intro x hx hpx
        have hxnm : x.rkt_topic = nm := by simpa using hpx
        exact hn.1 (by
          rw [ht, ← hxnm]
          exact List.mem_map_of_mem TopicR.rkt_topic hx)
      rw [hnil]
      rfl
    · have ha : ¬ ((a.rkt_topic == nm) = true) := by
        intro hab
        have hanm : a.rkt_topic = nm := by simpa using hab
        exact hn.1 (by
          rw [hanm, ← ht]
          exact List.mem_map_of_mem TopicR.rkt_topic h0)
      rw [if_neg ha]
      exact ih hn.2 h0

/-- C8: calling rd_kafka_topic_new twice with the same name (valid
configuration) returns the same underlying topic object — the second call
finds the existing entry, bumps its refcount by one and creates nothing —
and the registry ends up with exactly one entry for that name.  The
hypotheses are the registry invariants: unique names, unique allocation
identities, identities below the allocation counter. -/
theorem topic_new_idempotent (rk : Client) (nm : String) (c : TopicConf)
    (hnames : (rk.rk_topics.map TopicR.rkt_topic).Nodup)
    (htidnd : (rk.rk_topics.map TopicR.tid).Nodup)
    (htids : ∀ t ∈ rk.rk_topics, t.tid < rk.nextTid)
    (hmto : 0 < c.message_timeout_ms) (hrto : 0 < c.request_timeout_ms) :
    ∃ t1 : Nat,
      (rd_kafka_topic_new rk (some nm) (some c)).1 = .ret t1 false ∧
      (rd_kafka_topic_new ((rd_kafka_topic_new rk (some nm) (some c)).2)
          (some nm) (some c)).1 = .ret t1 false ∧
      ((rd_kafka_topic_new ((rd_kafka_topic_new rk (some nm) (some c)).2)
          (some nm) (some c)).2.rk_topics.filter
            (fun t => t.rkt_topic == nm)).length = 1 ∧
      (rd_kafka_topic_new ((rd_kafka_topic_new rk (some nm) (some c)).2)
          (some nm) (some c)).2.rk_topics.length =
        (rd_kafka_topic_new rk (some nm) (some c)).2.rk_topics.length ∧
      ∃ u, topicByTid ((rd_kafka_topic_new rk (some nm) (some c)).2) t1 = some u ∧
        topicByTid ((rd_kafka_topic_new ((rd_kafka_topic_new rk (some nm)
            (some c)).2) (some nm) (some c)).2) t1 =
          some { u with refcnt := u.refcnt + 1 } := by
  have hbad : ¬ (c.message_timeout_ms ≤ 0 ∨ c.request_timeout_ms ≤ 0) := by
    rw [not_or]
    exact ⟨not_le.mpr hmto, not_le.mpr hrto⟩
  have hpname : ∀ (tid0 : Nat) (u : TopicR),
      ((bumpTid tid0 u).rkt_topic == nm) = (u.rkt_topic == nm) := by
    intro tid0 u
    rw [bumpTid_rkt_topic]
  have hptid : ∀ (tid0 tid1 : Nat) (u : TopicR),
      ((bumpTid tid0 u).tid == tid1) = (u.tid == tid1) := by
    intro tid0 tid1 u
    rw [bumpTid_tid]
  cases hfind : rk.rk_topics.find? (fun t => t.rkt_topic == nm) with
  | some t0 =>
    have ht0mem := List.mem_of_find?_eq_some hfind
    have ht0nm : t0.rkt_topic = nm := by
      have hb := List.find?_some hfind
      simpa using hb
    have hF1 : rd_kafka_topic_find rk nm =
        (some t0.tid, { rk with rk_topics := rk.rk_topics.map (bumpTid t0.tid) }) := by
      unfold rd_kafka_topic_find
      rw [hfind]
    have e1 : rd_kafka_topic_new rk (some nm) (some c) =
        (.ret t0.tid false,
         { rk with rk_topics := rk.rk_topics.map (bumpTid t0.tid) }) := by
      simp only [rd_kafka_topic_new, if_neg hbad, hF1]
    have hfind2 : (rk.rk_topics.map (bumpTid t0.tid)).find?
        (fun t => t.rkt_topic == nm) = some (bumpTid t0.tid t0) := by
      rw [find?_map_bumpTid _ _ _ (hpname t0.tid), hfind]
      rfl
    have hF2 : rd_kafka_topic_find
        { rk with rk_topics := rk.rk_topics.map (bumpTid t0.tid) } nm =
        (some t0.tid,
         { rk with rk_topics :=
            (rk.rk_topics.map (bumpTid t0.tid)).map (bumpTid t0.tid) }) := by
      unfold rd_kafka_topic_find
      dsimp only
      rw [hfind2]
      dsimp only
      rw [bumpTid_tid]
    have e2 : rd_kafka_topic_new
        { rk with rk_topics := rk.rk_topics.map (bumpTid t0.tid) }
        (some nm) (some c) =
        (.ret t0.tid false,
         { rk with rk_topics :=
            (rk.rk_topics.map (bumpTid t0.tid)).map (bumpTid t0.tid) }) := by
      simp only [rd_kafka_topic_new, if_neg hbad, hF2]
    refine ⟨t0.tid, ?_, ?_, ?_, ?_, ⟨bumpTid t0.tid t0, ?_, ?_⟩⟩
    · rw [e1]
    · rw [e1]
      dsimp only
      rw [e2]
    · rw [e1]
      dsimp only
      rw [e2]
      dsimp only
      rw [filter_map_bumpTid _ _ _ (hpname t0.tid),
        filter_map_bumpTid _ _ _ (hpname t0.tid)]
      exact filter_name_unique_len _ t0 nm hnames ht0mem ht0nm
    · rw [e1]
      dsimp only
      rw [e2]
      dsimp only
      simp
    · rw [e1]
      unfold topicByTid
      dsimp only
      rw [find?_map_bumpTid _ _ _ (hptid t0.tid t0.tid),
        find?_tid_unique _ t0 htidnd ht0mem]
      rfl
    · rw [e1]
      dsimp only
      rw [e2]
      unfold topicByTid
      dsimp only
      rw [find?_map_bumpTid _ _ _ (hptid t0.tid t0.tid),
        find?_map_bumpTid _ _ _ (hptid t0.tid t0.tid),
        find?_tid_unique _ t0 htidnd ht0mem]
      simp [bumpTid]
  | none =>
    have hall : ∀ x ∈ rk.rk_topics, ¬ ((x.rkt_topic == nm) = true) :=
      List.find?_eq_none.mp hfind
    have hF1 : rd_kafka_topic_find rk nm = (none, rk) := by
      unfold rd_kafka_topic_find
      rw [hfind]
    have e1 : rd_kafka_topic_new rk (some nm) (some c) =
        (.ret rk.nextTid false, clientAfterCreate rk nm c) := by
      simp only [rd_kafka_topic_new, if_neg hbad, hF1]
      rfl
    have hfind2 : (rk.rk_topics ++ [freshTopic rk nm c]).find?
        (fun t => t.rkt_topic == nm) = some (freshTopic rk nm c) := by
      rw [List.find?_append, hfind]
      simp [freshTopic]
    have hfindtid : (rk.rk_topics ++ [freshTopic rk nm c]).find?
        (fun t => t.tid == rk.nextTid) = some (freshTopic rk nm c) := by
      rw [List.find?_append]
      rw [show rk.rk_topics.find? (fun t => t.tid == rk.nextTid) = none from
        List.find?_eq_none.mpr (fun x hx hpx => by
          have hlt := htids x hx
          have hx2 : x.tid = rk.nextTid := by simpa using hpx
          omega)]
      simp [freshTopic]
    have hF2 : rd_kafka_topic_find (clientAfterCreate rk nm c) nm =
        (some rk.nextTid,
         { clientAfterCreate rk nm c with
           rk_topics := (rk.rk_topics ++ [freshTopic rk nm c]).map
             (bumpTid rk.nextTid) }) := by
      unfold rd_kafka_topic_find
      rw [show (clientAfterCreate rk nm c).rk_topics =
          rk.rk_topics ++ [freshTopic rk nm c] from rfl, hfind2]
      rfl
    have e2 : rd_kafka_topic_new (clientAfterCreate rk nm c) (some nm) (some c) =
        (.ret rk.nextTid false,
         { clientAfterCreate rk nm c with
           rk_topics := (rk.rk_topics ++ [freshTopic rk nm c]).map
             (bumpTid rk.nextTid) }) := by
      simp only [rd_kafka_topic_new, if_neg hbad, hF2]
    refine ⟨rk.nextTid, ?_, ?_, ?_, ?_, ⟨freshTopic rk nm c, ?_, ?_⟩⟩
    · rw [e1]
    · rw [e1]
      dsimp only
      rw [e2]
    · rw [e1]
      dsimp only
      rw [e2]
      dsimp only
      rw [filter_map_bumpTid _ _ _ (hpname rk.nextTid), List.filter_append]
      rw [show rk.rk_topics.filter (fun t => t.rkt_topic == nm) = [] from
        List.filter_eq_nil_iff.mpr hall]
      simp [freshTopic]
    · rw [e1]
      dsimp only
      rw [e2]
      dsimp only
      simp [clientAfterCreate]
    · rw [e1]
      unfold topicByTid
      dsimp only [clientAfterCreate]
      exact hfindtid
    · rw [e1]
      dsimp only
      rw [e2]
      unfold topicByTid
      dsimp only
      rw [find?_map_bumpTid _ _ _ (hptid rk.nextTid rk.nextTid), hfindtid]
      simp [bumpTid, freshTopic]

/-- C8 (witness): on a fresh client, both calls return the same topic
handle (identity 0). -/
theorem topic_new_idempotent_witness :
    (rd_kafka_topic_new ⟨[], 0, 0, 0⟩ (some "orders") (some ⟨1, 1, none⟩)).1 =
        .ret 0 false ∧
    (rd_kafka_topic_new ((rd_kafka_topic_new ⟨[], 0, 0, 0⟩ (some "orders")
        (some ⟨1, 1, none⟩)).2) (some "orders") (some ⟨1, 1, none⟩)).1 =
      .ret 0 false := by
  obtain ⟨t1, h1, h2, h3, h4, h5⟩ :=
    topic_new_idempotent ⟨[], 0, 0, 0⟩ "orders" ⟨1, 1, none⟩ (by simp) (by simp)
      (by simp) (by decide) (by decide)
  have hv : (rd_kafka_topic_new ⟨[], 0, 0, 0⟩ (some "orders")
      (some ⟨1, 1, none⟩)).1 = .ret 0 false := by decide
  rw [hv] at h1
  injection h1 with ht hd
  rw [← ht] at h2
  exact ⟨hv, h2⟩

/-- Erasing an element that cannot satisfy the search predicate leaves a
find? result unchanged. -/
theorem find?_eraseP_of_imp (l : List Part) (pr q : Part → Bool)
    (h : ∀ x ∈ l, q x = true → pr x = false) :
    (l.eraseP q).find? pr = l.find? pr := by
  induction l with
  | nil => rfl
  | cons a t ih =>
    by_cases hq : q a = true
    · rw [List.eraseP_cons, hq]
      rw [List.find?_cons_of_neg _
        (by simp [h a (List.mem_cons_self a t) hq])]
      rfl
    · have hq2 : q a = false := by simpa using hq
      rw [List.eraseP_cons, hq2]
      show (a :: t.eraseP q).find? pr = (a :: t).find? pr
      by_cases hpr : pr a = true
      · rw [List.find?_cons_of_pos _ hpr, List.find?_cons_of_pos _ hpr]
      · rw [List.find?_cons_of_neg _ hpr, List.find?_cons_of_neg _ hpr]
        exact ih (fun x hx hqx => h x (List.mem_cons_of_mem a hx) hqx)

/-- After TAILQ_REMOVE of the partition with a given allocation identity
from a duplicate-free desired list, that identity is gone. -/
theorem oid_not_mem_eraseP (l : List Part) (p : Part)
    (hn : (l.map Part.oid).Nodup) (hm : p ∈ l) :
    p.oid ∉ (l.eraseP (fun x => x.oid == p.oid)).map Part.oid := by
  induction l with
  | nil => cases hm
  | cons a t ih =>
    rw [List.map_cons, List.nodup_cons] at hn
    by_cases ha : (a.oid == p.oid) = true
    · rw [List.eraseP_cons, ha]
      have haeq : a.oid = p.oid := by simpa using ha
      show p.oid ∉ t.map Part.oid
      exact haeq ▸ hn.1
    · have ha2 : (a.oid == p.oid) = false := by simpa using ha
      rw [List.eraseP_cons, ha2]
      show p.oid ∉ (a :: t.eraseP (fun x => x.oid == p.oid)).map Part.oid
      rw [List.map_cons]
      intro hmem
      rcases List.mem_cons.mp hmem with h1 | h1
      · exact ha (by simp [h1.symm])
      · have hpt : p ∈ t := by
          rcases List.mem_cons.mp hm with h2 | h2
          · subst h2
            simp at ha2
          · exact h2
        exact ih hn.2 hpt h1

/-- A desired-list entry with the searched partition id is the find?
result when the list holds at most one entry per partition id. -/
theorem desiredFind_unique (desp : List Part) (p : Part) (i : Int)
    (hu : (desp.map Part.rktp_partition).Nodup) (hm : p ∈ desp)
    (hp : p.rktp_partition = i) : desiredFind desp i = some p := by
  unfold desiredFind
  induction desp with
  | nil => cases hm
  | cons a t ih =>
    rw [List.map_cons, List.nodup_cons] at hu
    rcases List.mem_cons.mp hm with h0 | h0
    · subst h0
      exact List.find?_cons_of_pos _ (by simp [hp])
    · have ha : ¬ ((a.rktp_partition == i) = true) := by
        intro hab
        have hai : a.rktp_partition = i := by simpa using hab
        exact hu.1 (by
          rw [hai, ← hp]
          exact List.mem_map_of_mem Part.rktp_partition h0)
      rw [List.find?_cons_of_neg _ (by exact ha)]
      exact ih hu.2 h0

/-- Behaviour of the array-building loop of
rd_kafka_topic_partition_cnt_update: `k` iterations starting at index `i`
produce a list whose entry for an existing index is the old `rkt_p` slot,
and whose entry for a new index is the desired-list hit (UNKNOWN cleared,
refcount bumped, and its identity gone from the final desired list) or a
freshly allocated toppar; the final desired list is a sublist of the
initial one. -/
theorem cntUpdateBuild_spec (rkt : Topic) :
    ∀ (k i : Nat) (desp : List Part) (fresh : Nat),
      (desp.map Part.oid).Nodup →
      (cntUpdateBuild rkt i k desp fresh).1.length = k ∧
      List.Sublist (cntUpdateBuild rkt i k desp fresh).2.1 desp ∧
      (∀ j, j < k → i + j < rkt.rkt_partition_cnt →
        (cntUpdateBuild rkt i k desp fresh).1[j]? =
          some (rkt.rkt_p.getD (i + j) junkPart)) ∧
      (∀ j, j < k → rkt.rkt_partition_cnt ≤ i + j →
        (∀ p, desiredFind desp ((i + j : Nat) : Int) = some p →
          (cntUpdateBuild rkt i k desp fresh).1[j]? =
            some { p with unknown := false, rc := p.rc + 1 } ∧
          p.oid ∉ (cntUpdateBuild rkt i k desp fresh).2.1.map Part.oid) ∧
        (desiredFind desp ((i + j : Nat) : Int) = none →
          ∃ g, (cntUpdateBuild rkt i k desp fresh).1[j]? =
            some (rd_kafka_toppar_new g ((i + j : Nat) : Int)))) := by
  intro k
  induction k with
  | zero =>
    intro i desp fresh hoid
    refine ⟨rfl, List.Sublist.refl _, ?_, ?_⟩
    · intro j hj
      exact absurd hj (Nat.not_lt_zero j)
    · intro j hj
      exact absurd hj (Nat.not_lt_zero j)
  | succ k ih =>
    intro i desp fresh hoid
    by_cases hlt : i < rkt.rkt_partition_cnt
    · have hb : cntUpdateBuild rkt i (k + 1) desp fresh =
          (rkt.rkt_p.getD i junkPart ::
             (cntUpdateBuild rkt (i + 1) k desp fresh).1,
           (cntUpdateBuild rkt (i + 1) k desp fresh).2.1,
           (cntUpdateBuild rkt (i + 1) k desp fresh).2.2) := by
        simp only [cntUpdateBuild, if_pos hlt]
      obtain ⟨ihlen, ihsub, ihold, ihnew⟩ := ih (i + 1) desp fresh hoid
      rw [hb]
      refine ⟨by simp [ihlen], ihsub, ?_, ?_⟩
      · intro j hj hij
        cases j with
        | zero => simp
        | succ j =>
          rw [List.getElem?_cons_succ,
            show i + (j + 1) = (i + 1) + j from by omega]
          exact ihold j (by omega) (by omega)
      · intro j hj hge
        cases j with
        | zero => exact absurd hge (by omega)
        | succ j =>
          rw [List.getElem?_cons_succ,
            show i + (j + 1) = (i + 1) + j from by omega]
          exact ihnew j (by omega) (by omega)
    · cases hdf : desiredFind desp ((i : Nat) : Int) with
      | some p =>
        have hpmem : p ∈ desp := List.mem_of_find?_eq_some hdf
        have hppart : p.rktp_partition = (i : Int) := by
          have hb := List.find?_some hdf
          simpa using hb
        have hb : cntUpdateBuild rkt i (k + 1) desp fresh =
            ({ p with unknown := false, rc := p.rc + 1 } ::
               (cntUpdateBuild rkt (i + 1) k
                 (desp.eraseP (fun x => x.oid == p.oid)) fresh).1,
             (cntUpdateBuild rkt (i + 1) k
               (desp.eraseP (fun x => x.oid == p.oid)) fresh).2.1,
             (cntUpdateBuild rkt (i + 1) k
               (desp.eraseP (fun x => x.oid == p.oid)) fresh).2.2) := by
          simp only [cntUpdateBuild, if_neg hlt, hdf]
        have hsubE : List.Sublist (desp.eraseP (fun x => x.oid == p.oid)) desp :=
          List.eraseP_sublist desp
        have hoidE : ((desp.eraseP (fun x => x.oid == p.oid)).map Part.oid).Nodup :=
          (hsubE.map Part.oid).nodup hoid
        have hgone : p.oid ∉
            (desp.eraseP (fun x => x.oid == p.oid)).map Part.oid :=
          oid_not_mem_eraseP desp p hoid hpmem
        have htrans : ∀ m : Nat, m ≠ i →
            desiredFind (desp.eraseP (fun x => x.oid == p.oid)) ((m : Nat) : Int) =
              desiredFind desp ((m : Nat) : Int) := by
          intro m hmi
          unfold desiredFind
          apply find?_eraseP_of_imp
          intro x hx hqx
          have hxp : x = p := by
            have hxoid : x.oid = p.oid := by simpa using hqx
            exact List.inj_on_of_nodup_map hoid hx hpmem hxoid
          subst hxp
          rw [hppart]
          rw [beq_eq_false_iff_ne]
          intro hcast
          exact hmi (by exact_mod_cast hcast.symm)
        obtain ⟨ihlen, ihsub, ihold, ihnew⟩ :=
          ih (i + 1) (desp.eraseP (fun x => x.oid == p.oid)) fresh hoidE
        rw [hb]
        refine ⟨by simp [ihlen], ihsub.trans hsubE, ?_, ?_⟩
        · intro j hj hij
          exact absurd hij (by omega)
        · intro j hj hge
          cases j with
          | zero =>
            constructor
            · intro p2 hp2
              rw [show i + 0 = i from rfl] at hp2
              rw [hdf] at hp2
              injection hp2 with hp2e
              subst hp2e
              refine ⟨by rw [List.getElem?_cons_zero], ?_⟩
              intro hmem
              exact hgone ((ihsub.map Part.oid).subset hmem)
            · intro hnone
              rw [show i + 0 = i from rfl, hdf] at hnone
              cases hnone
          | succ j =>
            have hidx : i + (j + 1) = (i + 1) + j := by omega
            have hne : (i + 1) + j ≠ i := by omega
            rw [List.getElem?_cons_succ, hidx, ← htrans ((i + 1) + j) hne]
            exact ihnew j (by omega) (by omega)
      | none =>
        have hb : cntUpdateBuild rkt i (k + 1) desp fresh =
            (rd_kafka_toppar_new fresh ((i : Nat) : Int) ::
               (cntUpdateBuild rkt (i + 1) k desp (fresh + 1)).1,
             (cntUpdateBuild rkt (i + 1) k desp (fresh + 1)).2.1,
             (cntUpdateBuild rkt (i + 1) k desp (fresh + 1)).2.2) := by
          simp only [cntUpdateBuild, if_neg hlt, hdf]
        obtain ⟨ihlen, ihsub, ihold, ihnew⟩ := ih (i + 1) desp (fresh + 1) hoid
        rw [hb]
        refine ⟨by simp [ihlen], ihsub, ?_, ?_⟩
        · intro j hj hij
          exact absurd hij (by omega)
        · intro j hj hge
          cases j with
          | zero =>
            constructor
            · intro p2 hp2
              rw [show i + 0 = i from rfl, hdf] at hp2
              cases hp2
            · intro _
              exact ⟨fresh, by rw [List.getElem?_cons_zero, show i + 0 = i from rfl]⟩
          | succ j =>
            rw [List.getElem?_cons_succ,
              show i + (j + 1) = (i + 1) + j from by omega]
            exact ihnew j (by omega) (by omega)

/-- C2: a partition-count update that grows the topic returns 1, keeps
every existing `rkt_p[i]` in place, and for each new index `i` installs
the desired-list entry with partition id `i` when one exists — the very
same Part object, UNKNOWN cleared, refcount bumped by the desired_get
keep, and its identity removed from rkt_desp — and a freshly created
toppar otherwise.  Hypotheses are the topic invariants: dense array
(invariant 1) and duplicate-free desired list. -/
theorem partition_cnt_update_grow (rkt : Topic) (cnt fresh : Nat)
    (hlen : rkt.rkt_p.length = rkt.rkt_partition_cnt)
    (hgrow : rkt.rkt_partition_cnt < cnt)
    (hoid : (rkt.rkt_desp.map Part.oid).Nodup)
    (hpart : (rkt.rkt_desp.map Part.rktp_partition).Nodup) :
    (rd_kafka_topic_partition_cnt_update rkt cnt fresh).1 = 1 ∧
    (rd_kafka_topic_partition_cnt_update rkt cnt fresh).2.1.rkt_partition_cnt
        = cnt ∧
    (rd_kafka_topic_partition_cnt_update rkt cnt fresh).2.1.rkt_p.length = cnt ∧
    (∀ i, i < rkt.rkt_partition_cnt →
      (rd_kafka_topic_partition_cnt_update rkt cnt fresh).2.1.rkt_p[i]? =
        rkt.rkt_p[i]?) ∧
    (∀ i, rkt.rkt_partition_cnt ≤ i → i < cnt →
      (∀ p, p ∈ rkt.rkt_desp → p.rktp_partition = (i : Int) →
        (rd_kafka_topic_partition_cnt_update rkt cnt fresh).2.1.rkt_p[i]? =
          some { p with unknown := false, rc := p.rc + 1 } ∧
        p.oid ∉ (rd_kafka_topic_partition_cnt_update rkt cnt
          fresh).2.1.rkt_desp.map Part.oid) ∧
      ((∀ p ∈ rkt.rkt_desp, p.rktp_partition ≠ (i : Int)) →
        ∃ g, (rd_kafka_topic_partition_cnt_update rkt cnt fresh).2.1.rkt_p[i]? =
          some (rd_kafka_toppar_new g (i : Int)))) := by
  have hne : ¬ (rkt.rkt_partition_cnt = cnt) := by omega
  have hdrop : rkt.rkt_p.drop cnt = [] := List.drop_eq_nil_of_le (by omega)
  have he : rd_kafka_topic_partition_cnt_update rkt cnt fresh =
      (1,
       { rkt with
         rkt_p := (cntUpdateBuild rkt 0 cnt rkt.rkt_desp fresh).1
         rkt_partition_cnt := cnt
         rkt_desp := (cntUpdateBuild rkt 0 cnt rkt.rkt_desp fresh).2.1 },
       (cntUpdateBuild rkt 0 cnt rkt.rkt_desp fresh).2.2) := by
    unfold rd_kafka_topic_partition_cnt_update
    simp only [if_neg hne, hdrop]
    rfl
  obtain ⟨slen, ssub, sold, snew⟩ :=
    cntUpdateBuild_spec rkt cnt 0 rkt.rkt_desp fresh hoid
  rw [he]
  dsimp only
  refine ⟨rfl, rfl, slen, ?_, ?_⟩
  · intro i hi
    have h0 := sold i (by omega) (by omega)
    rw [show (0 : Nat) + i = i from by omega] at h0
    rw [h0, List.getD_eq_getElem?_getD, List.getElem?_eq_getElem (by omega)]
    rfl
  · intro i hge hicnt
    constructor
    · intro p hpm hpp
      have hfind : desiredFind rkt.rkt_desp (((0 + i : Nat)) : Int) = some p := by
        rw [show (0 : Nat) + i = i from by omega]
        exact desiredFind_unique rkt.rkt_desp p (i : Int) hpart hpm hpp
      exact (snew i (by omega) (by omega)).1 p hfind
    · intro hnone
      have hfind : desiredFind rkt.rkt_desp (((0 + i : Nat)) : Int) = none := by
        rw [show (0 : Nat) + i = i from by omega]
        unfold desiredFind
        rw [List.find?_eq_none]
        intro x hx
        simp [hnone x hx]
      have h1 := (snew i (by omega) (by omega)).2 hfind
      rw [show (0 : Nat) + i = i from by omega] at h1
      exact h1

/-- C2 (witness): spec scenario S2 — a topic with no partitions and a
desired partition 3 grown to five partitions: the call returns 1 and
parts[3] is the desired Part object (same identity 7) with UNKNOWN
cleared and the refcount bumped. -/
theorem partition_cnt_update_grow_witness :
    (rd_kafka_topic_partition_cnt_update
        ⟨0, [], some ⟨9, -1, false, false, msgqInit, 1⟩,
         [⟨7, 3, true, true, msgqInit, 1⟩]⟩ 5 20).1 = 1 ∧
    (rd_kafka_topic_partition_cnt_update
        ⟨0, [], some ⟨9, -1, false, false, msgqInit, 1⟩,
         [⟨7, 3, true, true, msgqInit, 1⟩]⟩ 5 20).2.1.rkt_p[3]? =
      some ⟨7, 3, true, false, msgqInit, 2⟩ := by
  obtain ⟨h1, h2, h3, h4, h5⟩ := partition_cnt_update_grow
    ⟨0, [], some ⟨9, -1, false, false, msgqInit, 1⟩,
     [⟨7, 3, true, true, msgqInit, 1⟩]⟩ 5 20 rfl (by decide) (by decide)
    (by decide)
  refine ⟨h1, ?_⟩
  have hh := (h5 3 (by decide) (by decide)).1 ⟨7, 3, true, true, msgqInit, 1⟩
    (by decide) (by decide)
  exact hh.1

end RdKafka
